import Mathlib

/-!
Verification of the `bun-ai-api` streaming chat gateway design.

The data types `ChatMessage` and `APIService` are embedded from
`src/types.ts`.  The selector, failover controller, stream normalizer and
gateway facade are documented in `src/PROJECT_KNOWLEDGE.md` but their code
(`index.ts`, `services/`) is not part of the source tree, so those
components are modelled from the design document, as marked on each
definition.
-/

namespace BunAI

/-- Role of a chat message, from `types.ts`:
`role: "user" | "assistant" | "system"`. -/
inductive Role where
  | user
  | assistant
  | system
  deriving DecidableEq

/-- `ChatMessage` from `types.ts`: a `role` and a `content` text field. -/
structure ChatMessage where
  role : Role
  content : String
  deriving DecidableEq

/-- Result of driving an `AsyncIterable<string>` (the stream type of
`types.ts`) to its end: either it yields a list of string fragments and
terminates normally, or it yields a prefix of fragments and then fails
mid-iteration. -/
inductive StreamOutcome where
  | complete (fragments : List String)
  | interrupted (fragments : List String) (error : String)
  deriving DecidableEq

/-- Observable result of one `chat` call of an `APIService`, embedding
`Promise<AsyncIterable<string>>` from `types.ts`: the promise either
rejects before any stream exists (`preStreamFailure`), or resolves to a
stream whose iteration has a `StreamOutcome`. -/
inductive ProviderOutcome where
  | preStreamFailure (error : String)
  | stream (outcome : StreamOutcome)
  deriving DecidableEq

/-- `APIService` from `types.ts`: a provider is a `name` together with a
`chat` capability taking the ordered message list. -/
structure APIService where
  name : String
  chat : List ChatMessage → ProviderOutcome

instance : Inhabited APIService :=
  ⟨⟨"", fun _ => ProviderOutcome.preStreamFailure "unregistered"⟩⟩

/-- A canonical output token: a text fragment plus its sequence number
within one response stream (spec §3). -/
structure Token where
  text : String
  seq : Nat
  deriving DecidableEq

/-- Helper of the normalizer: number the fragments starting at `seq`. -/
def normalizeFrom (seq : Nat) : List String → List Token
  | [] => []
  | f :: rest => ⟨f, seq⟩ :: normalizeFrom (seq + 1) rest

/-- Modelled from the spec: the Stream Normalizer (§4.3) — `index.ts` and
`services/` are absent from the source tree.  It emits canonical Tokens
with sequence numbers starting at 0, incrementing by 1, in the order the
fragments arrive from the provider. -/
def normalize (fragments : List String) : List Token :=
  normalizeFrom 0 fragments

theorem normalizeFrom_map_seq (s : Nat) (l : List String) :
    (normalizeFrom s l).map Token.seq = List.range' s l.length := by
  induction l generalizing s with
  | nil => rfl
  | cons f rest ih => simp [normalizeFrom, List.range', ih]

theorem normalizeFrom_map_text (s : Nat) (l : List String) :
    (normalizeFrom s l).map Token.text = l := by
  induction l generalizing s with
  | nil => rfl
  | cons f rest ih => simp [normalizeFrom, ih]

/-- Modelled from the spec: `ProviderState` (§3) — the per-provider mutable
health record of the not-yet-implemented failover layer: the provider id it
is keyed by, a healthy flag, the consecutive-failure count, and the cooldown
deadline, if any. -/
structure ProviderState where
  providerId : String
  healthy : Bool
  consecutiveFailures : Nat
  cooldownUntil : Option Nat
  deriving DecidableEq

/-- Modelled from the spec: the ProviderState a registration creates (§4.1):
`healthy = true`, no failures, no cooldown. -/
def freshState (id : String) : ProviderState :=
  ⟨id, true, 0, none⟩

/-- Modelled from the spec: availability test of the Selector (§4.2) — a
provider is skipped exactly when its ProviderState is unhealthy and its
cooldown has not expired at time `now`. -/
def ProviderState.available (now : Nat) (st : ProviderState) : Bool :=
  st.healthy ||
    match st.cooldownUntil with
    | none => true
    | some t => decide (t ≤ now)

/-- Modelled from the spec: the shared mutable state (§3): the read-only
registry (insertion order = rotation order), the ProviderState map keyed by
provider id, and the Cursor. -/
structure SelectorState where
  providers : List APIService
  stateOf : String → ProviderState
  cursor : Nat

/-- Configuration-time error of the Selector (§7). -/
inductive SelectorError where
  | noProvidersRegistered
  deriving DecidableEq

/-- Availability of the provider at registry index `i` of `s`. -/
def availableIdx (s : SelectorState) (now : Nat) (i : Nat) : Bool :=
  (s.stateOf ((s.providers.getD i default).name)).available now

/-- Modelled from the spec: the forward scan of `next()` (§4.2) — starting
at rotation position `pos`, look at up to `fuel` consecutive positions
(mod provider count) and return the registry index of the first provider
that is currently available. -/
def scanFrom (s : SelectorState) (now : Nat) : Nat → Nat → Option Nat
  | 0, _ => none
  | fuel + 1, pos =>
    let i := pos % s.providers.length
    if availableIdx s now i then some i
    else scanFrom s now fuel (pos + 1)

/-- The key the best-effort fallback minimises: when the provider at index
`i` last entered cooldown (0 when it never failed), i.e. how recently it
failed. -/
def cooldownKey (s : SelectorState) (i : Nat) : Nat :=
  ((s.stateOf ((s.providers.getD i default).name)).cooldownUntil).getD 0

/-- Helper of the fallback choice: scan `fuel` rotation positions from
`pos`, keeping the index with the smallest cooldown key (ties keep the
earlier position). -/
def fallbackAux (s : SelectorState) (best : Nat) : Nat → Nat → Nat
  | 0, _ => best
  | fuel + 1, pos =>
    let i := pos % s.providers.length
    let best' := if cooldownKey s i < cooldownKey s best then i else best
    fallbackAux s best' fuel (pos + 1)

/-- Modelled from the spec: the best-effort degrade of `next()` (§4.2) —
when a full rotation finds no available provider, pick the
least-recently-failed one anyway, starting the comparison at the Cursor. -/
def fallbackIndex (s : SelectorState) : Nat :=
  fallbackAux s (s.cursor % s.providers.length) s.providers.length s.cursor

/-- The registry index `next()` selects on a non-empty registry: the first
available provider scanning forward from the Cursor, else the
least-recently-failed fallback. -/
def nextIdx (s : SelectorState) (now : Nat) : Nat :=
  match scanFrom s now s.providers.length s.cursor with
  | some i => i
  | none => fallbackIndex s

/-- Modelled from the spec: `next()` (§4.2) — fails with
`NoProvidersRegisteredError` iff the registry is empty; otherwise scans
forward from the Cursor for the first available provider, falls back to
the least-recently-failed provider when none is available, and advances
the Cursor past the selection (mod provider count). -/
def next (s : SelectorState) (now : Nat) :
    Except SelectorError (APIService × SelectorState) :=
  if s.providers.isEmpty then .error .noProvidersRegistered
  else
    .ok (s.providers.getD (nextIdx s now) default,
      { s with cursor := (nextIdx s now + 1) % s.providers.length })

/-- Modelled from the spec: failure bookkeeping of the Failover Controller
(§4.4 step 5): mark the provider unhealthy, bump its consecutive-failure
count, and set an exponential cooldown `now + base * 2 ^ failures`, capped. -/
def markFailure (now : Nat) (id : String) (s : SelectorState) : SelectorState :=
  { s with
    stateOf := fun j =>
      if j = id then
        let st := s.stateOf id
        { st with
          healthy := false
          consecutiveFailures := st.consecutiveFailures + 1
          cooldownUntil := some (now + min (1000 * 2 ^ st.consecutiveFailures) 60000) }
      else s.stateOf j }

/-- Modelled from the spec: success bookkeeping of the Failover Controller
(§4.4 step 7): reset `consecutiveFailures` to 0 and mark healthy. -/
def markSuccess (id : String) (s : SelectorState) : SelectorState :=
  { s with
    stateOf := fun j =>
      if j = id then
        { s.stateOf id with healthy := true, consecutiveFailures := 0, cooldownUntil := none }
      else s.stateOf j }

/-- What the caller of `chat()` observes in the end (§4.4): a completed
token stream, a partial token stream terminated by `StreamInterruptedError`,
or `AllProvidersExhaustedError` carrying the per-provider failure causes
(provider id paired with its reason). -/
inductive ChatOutcome where
  | completed (tokens : List Token)
  | interrupted (tokens : List Token)
  | exhausted (causes : List (String × String))
  deriving DecidableEq

/-- Full record of one `chat()` run: the caller-visible outcome, the final
shared state, and the provider invocations performed (provider id with the
message list it was sent), in order. -/
structure ChatResult where
  outcome : ChatOutcome
  final : SelectorState
  invocations : List (String × List ChatMessage)

/-- A provider outcome that counts as a pre-first-token failure (§4.4):
either the promise rejected before any stream existed, or the stream broke
before yielding any fragment. -/
def failsPreFirstToken : ProviderOutcome → Bool
  | .preStreamFailure _ => true
  | .stream (.complete _) => false
  | .stream (.interrupted fragments _) => fragments.isEmpty

/-- Modelled from the spec: the Failover Controller loop (§4.4) — the
failover layer is a TODO of `src/PROJECT_KNOWLEDGE.md` and absent from the
source tree.  Each round asks the Selector for a candidate, invokes it,
and by failure phase either retries (pre-first-token, bumping the cause
list) or terminates: a natural end completes the normalized stream; a
break after partial delivery surfaces the already-delivered tokens and
`StreamInterruptedError` without any retry; running out of attempts
surfaces `AllProvidersExhaustedError` with the accumulated causes. -/
def chatLoop (now : Nat) (messages : List ChatMessage)
    (causes : List (String × String)) (invs : List (String × List ChatMessage)) :
    Nat → SelectorState → ChatResult
  | 0, s => ⟨.exhausted causes.reverse, s, invs.reverse⟩
  | fuel + 1, s =>
    match next s now with
    | .error _ => ⟨.exhausted causes.reverse, s, invs.reverse⟩
    | .ok (p, s₁) =>
      match p.chat messages with
      | .preStreamFailure e =>
        chatLoop now messages ((p.name, e) :: causes) ((p.name, messages) :: invs)
          fuel (markFailure now p.name s₁)
      | .stream (.complete fragments) =>
        ⟨.completed (normalize fragments), markSuccess p.name s₁,
          ((p.name, messages) :: invs).reverse⟩
      | .stream (.interrupted fragments e) =>
        if fragments.isEmpty then
          chatLoop now messages ((p.name, e) :: causes) ((p.name, messages) :: invs)
            fuel (markFailure now p.name s₁)
        else
          ⟨.interrupted (normalize fragments), markFailure now p.name s₁,
            ((p.name, messages) :: invs).reverse⟩

/-- Modelled from the spec: `chat()` (§4.4 step 1) — run the failover loop
with `attempts = 0` and `maxAttempts = providerCount`. -/
def chat (now : Nat) (messages : List ChatMessage) (s : SelectorState) : ChatResult :=
  chatLoop now messages [] [] s.providers.length s

/-- Fast-fail error of the Chat Gateway facade (§4.5, §7). -/
inductive GatewayError where
  | invalidRequest
  deriving DecidableEq

/-- Modelled from the spec: the Chat Gateway facade (§4.5) — validates that
`messages` is non-empty and every message has non-empty content (the role
is well-formed by construction), then delegates unchanged to the Failover
Controller. -/
def gatewayChat (now : Nat) (messages : List ChatMessage) (s : SelectorState) :
    Except GatewayError ChatResult :=
  if messages.isEmpty || messages.any (fun m => m.content == "") then
    .error .invalidRequest
  else
    .ok (chat now messages s)

/-- One run of calls to the Selector: perform `k` consecutive `next()`
selections at time `now`, collecting the chosen providers in order. -/
def runSelections (now : Nat) : Nat → SelectorState → List APIService
  | 0, _ => []
  | k + 1, s =>
    match next s now with
    | .error _ => []
    | .ok (p, s') => p :: runSelections now k s'

/-! ### Basic lemmas about the Selector -/

theorem scanFrom_spec (s : SelectorState) (now : Nat) (hn : 0 < s.providers.length) :
    ∀ fuel pos i, scanFrom s now fuel pos = some i →
      i < s.providers.length ∧ availableIdx s now i = true := by
  intro fuel
  induction fuel with
  | zero => intro pos i h; simp [scanFrom] at h
  | succ fuel ih =>
    intro pos i h
    rw [scanFrom] at h
    by_cases hav : availableIdx s now (pos % s.providers.length)
    · simp [hav] at h
      exact ⟨h ▸ Nat.mod_lt pos hn, h ▸ hav⟩
    · simp [hav] at h
      exact ih (pos + 1) i h

theorem scanFrom_isSome (s : SelectorState) (now : Nat) :
    ∀ fuel pos, (∃ k, k < fuel ∧ availableIdx s now ((pos + k) % s.providers.length) = true) →
      (scanFrom s now fuel pos).isSome := by
  intro fuel
  induction fuel with
  | zero => rintro pos ⟨k, hk, _⟩; omega
  | succ fuel ih =>
    rintro pos ⟨k, hk, hav⟩
    rw [scanFrom]
    by_cases h0 : availableIdx s now (pos % s.providers.length)
    · simp [h0]
    · simp only [h0, if_neg, Bool.false_eq_true, ite_false]
      cases k with
      | zero => simp at hav; exact absurd hav h0
      | succ k' =>
        apply ih (pos + 1)
        refine ⟨k', by omega, ?_⟩
        have : pos + 1 + k' = pos + (k' + 1) := by omega
        rw [this]
        exact hav

theorem mod_shift_cover (n pos j : Nat) (hn : 0 < n) (hj : j < n) :
    ∃ k, k < n ∧ (pos + k) % n = j := by
  have hp : pos % n < n := Nat.mod_lt pos hn
  by_cases hpj : pos % n ≤ j
  · refine ⟨j - pos % n, by omega, ?_⟩
    have h1 : (pos + (j - pos % n)) % n = (pos % n + (j - pos % n)) % n := by
      rw [Nat.add_mod, Nat.mod_eq_of_lt (show j - pos % n < n by omega)]
    rw [h1]
    have h2 : pos % n + (j - pos % n) = j := by omega
    rw [h2, Nat.mod_eq_of_lt hj]
  · refine ⟨n + j - pos % n, by omega, ?_⟩
    have h1 : (pos + (n + j - pos % n)) % n = (pos % n + (n + j - pos % n)) % n := by
      rw [Nat.add_mod, Nat.mod_eq_of_lt (show n + j - pos % n < n by omega)]
    rw [h1]
    have h2 : pos % n + (n + j - pos % n) = n + j := by omega
    rw [h2, Nat.add_mod_left, Nat.mod_eq_of_lt hj]

theorem fallbackAux_lt (s : SelectorState) (hn : 0 < s.providers.length) :
    ∀ fuel best pos, best < s.providers.length →
      fallbackAux s best fuel pos < s.providers.length := by
  intro fuel
  induction fuel with
  | zero => intro best pos hb; simpa [fallbackAux] using hb
  | succ fuel ih =>
    intro best pos hb
    rw [fallbackAux]
    apply ih
    dsimp only
    split
    · exact Nat.mod_lt pos hn
    · exact hb

theorem fallbackIndex_lt (s : SelectorState) (hn : 0 < s.providers.length) :
    fallbackIndex s < s.providers.length :=
  fallbackAux_lt s hn _ _ _ (Nat.mod_lt _ hn)

theorem fallbackAux_min (s : SelectorState) :
    ∀ (fuel best pos : Nat),
      cooldownKey s (fallbackAux s best fuel pos) ≤ cooldownKey s best ∧
      ∀ k, k < fuel →
        cooldownKey s (fallbackAux s best fuel pos) ≤
          cooldownKey s ((pos + k) % s.providers.length) := by
  intro fuel
  induction fuel with
  | zero =>
    intro best pos
    exact ⟨Nat.le_refl _, fun k hk => absurd hk (by omega)⟩
  | succ fuel ih =>
    intro best pos
    rw [fallbackAux]
    by_cases hlt : cooldownKey s (pos % s.providers.length) < cooldownKey s best
    · rw [if_pos hlt]
      obtain ⟨h1, h2⟩ := ih (pos % s.providers.length) (pos + 1)
      refine ⟨by omega, ?_⟩
      intro k hk
      cases k with
      | zero =>
        have hz : cooldownKey s ((pos + 0) % s.providers.length) =
            cooldownKey s (pos % s.providers.length) := by simp
        omega
      | succ k' =>
        have harg : pos + (k' + 1) = pos + 1 + k' := by omega
        rw [harg]
        exact h2 k' (by omega)
    · rw [if_neg hlt]
      obtain ⟨h1, h2⟩ := ih best (pos + 1)
      refine ⟨h1, ?_⟩
      intro k hk
      cases k with
      | zero =>
        have hz : cooldownKey s ((pos + 0) % s.providers.length) =
            cooldownKey s (pos % s.providers.length) := by simp
        omega
      | succ k' =>
        have harg : pos + (k' + 1) = pos + 1 + k' := by omega
        rw [harg]
        exact h2 k' (by omega)

theorem fallbackIndex_min (s : SelectorState) (hn : 0 < s.providers.length) :
    ∀ j, j < s.providers.length →
      cooldownKey s (fallbackIndex s) ≤ cooldownKey s j := by
  intro j hj
  obtain ⟨k, hk, hcov⟩ := mod_shift_cover s.providers.length s.cursor j hn hj
  have h := (fallbackAux_min s s.providers.length
    (s.cursor % s.providers.length) s.cursor).2 k hk
  rw [hcov] at h
  rw [fallbackIndex]
  exact h

theorem scanFrom_none (s : SelectorState) (now : Nat) (hn : 0 < s.providers.length)
    (hnone : ∀ j, j < s.providers.length → availableIdx s now j = false) :
    ∀ fuel pos, scanFrom s now fuel pos = none := by
  intro fuel
  induction fuel with
  | zero => intro pos; rfl
  | succ fuel ih =>
    intro pos
    rw [scanFrom]
    rw [if_neg (by simp [hnone _ (Nat.mod_lt pos hn)]), ih]

theorem nextIdx_fallback (s : SelectorState) (now : Nat)
    (hn : 0 < s.providers.length)
    (hnone : ∀ j, j < s.providers.length → availableIdx s now j = false) :
    nextIdx s now = fallbackIndex s := by
  rw [nextIdx, scanFrom_none s now hn hnone]

theorem nextIdx_lt (s : SelectorState) (now : Nat) (hn : 0 < s.providers.length) :
    nextIdx s now < s.providers.length := by
  rw [nextIdx]
  cases h : scanFrom s now s.providers.length s.cursor with
  | none => exact fallbackIndex_lt s hn
  | some i => exact (scanFrom_spec s now hn _ _ i h).1

theorem nextIdx_available (s : SelectorState) (now : Nat) (hn : 0 < s.providers.length)
    (h : ∃ j, j < s.providers.length ∧ availableIdx s now j = true) :
    availableIdx s now (nextIdx s now) = true := by
  obtain ⟨j, hj, hav⟩ := h
  obtain ⟨k, hk, hcov⟩ := mod_shift_cover s.providers.length s.cursor j hn hj
  have hsome : (scanFrom s now s.providers.length s.cursor).isSome :=
    scanFrom_isSome s now _ s.cursor ⟨k, hk, by rw [hcov]; exact hav⟩
  rw [nextIdx]
  cases hscan : scanFrom s now s.providers.length s.cursor with
  | none => rw [hscan] at hsome; simp at hsome
  | some i => exact (scanFrom_spec s now hn _ _ i hscan).2

theorem next_eq_ok (s : SelectorState) (now : Nat) (hne : s.providers ≠ []) :
    next s now = .ok (s.providers.getD (nextIdx s now) default,
      { s with cursor := (nextIdx s now + 1) % s.providers.length }) := by
  rw [next, if_neg]
  simp [List.isEmpty_iff, hne]

theorem next_error_iff (s : SelectorState) (now : Nat) :
    next s now = .error .noProvidersRegistered ↔ s.providers = [] := by
  constructor
  · intro h
    by_contra hne
    rw [next_eq_ok s now hne] at h
    exact Except.noConfusion h
  · intro h
    rw [next, if_pos]
    simp [h]

theorem next_ok_inv (s : SelectorState) (now : Nat) (p : APIService) (s' : SelectorState)
    (h : next s now = .ok (p, s')) :
    s.providers ≠ [] ∧ p = s.providers.getD (nextIdx s now) default ∧
      s'.providers = s.providers ∧ s'.stateOf = s.stateOf ∧
      s'.cursor = (nextIdx s now + 1) % s.providers.length := by
  have hne : s.providers ≠ [] := by
    intro hnil
    rw [(next_error_iff s now).mpr hnil] at h
    exact Except.noConfusion h
  rw [next_eq_ok s now hne] at h
  injection h with h
  injection h with h1 h2
  exact ⟨hne, h1.symm, by rw [← h2], by rw [← h2], by rw [← h2]⟩

theorem next_mem (s : SelectorState) (now : Nat) (p : APIService) (s' : SelectorState)
    (h : next s now = .ok (p, s')) : p ∈ s.providers := by
  obtain ⟨hne, hp, -, -, -⟩ := next_ok_inv s now p s' h
  have hn : 0 < s.providers.length := List.length_pos.mpr hne
  have hlt := nextIdx_lt s now hn
  rw [hp, List.getD_eq_getElem s.providers default hlt]
  exact List.getElem_mem hlt

theorem markFailure_providers (now : Nat) (id : String) (s : SelectorState) :
    (markFailure now id s).providers = s.providers := rfl

theorem markSuccess_providers (id : String) (s : SelectorState) :
    (markSuccess id s).providers = s.providers := rfl

/-! ### Round-robin fairness: arithmetic helpers -/

theorem succ_mod_div (n N : Nat) (hn : 0 < n) :
    ((N + 1) % n = if N % n + 1 = n then 0 else N % n + 1) ∧
    ((N + 1) / n = if N % n + 1 = n then N / n + 1 else N / n) := by
  have hdm : n * (N / n) + N % n = N := Nat.div_add_mod N n
  have hm : N % n < n := Nat.mod_lt _ hn
  by_cases h : N % n + 1 = n
  · have hms : n * (N / n + 1) = n * (N / n) + n := by ring
    have e : N + 1 = n * (N / n + 1) := by omega
    rw [if_pos h, if_pos h, e, Nat.mul_mod_right, Nat.mul_div_cancel_left _ hn]
    exact ⟨rfl, rfl⟩
  · have e : N + 1 = n * (N / n) + (N % n + 1) := by omega
    rw [if_neg h, if_neg h, e, Nat.mul_add_mod, Nat.mul_add_div hn,
      Nat.mod_eq_of_lt (show N % n + 1 < n by omega),
      Nat.div_eq_of_lt (show N % n + 1 < n by omega)]
    exact ⟨rfl, rfl⟩

theorem mod_shift_iff (n c j m : Nat) (hn : 0 < n) (hc : c < n) (hj : j < n)
    (hm : m < n) : (c + m) % n = j ↔ m = (j + n - c) % n := by
  have h2 : (c + m) % n = if c + m < n then c + m else c + m - n := by
    split
    · exact Nat.mod_eq_of_lt (by omega)
    · rw [Nat.mod_eq_sub_mod (by omega)]
      exact Nat.mod_eq_of_lt (by omega)
  have h3 : (j + n - c) % n = if c ≤ j then j - c else j + n - c := by
    split
    · rw [show j + n - c = j - c + n by omega, Nat.add_mod_right]
      exact Nat.mod_eq_of_lt (by omega)
    · exact Nat.mod_eq_of_lt (by omega)
  rw [h2, h3]
  split_ifs <;> omega

theorem countP_range_rotation (n c j : Nat) (hn : 0 < n) (hc : c < n) (hj : j < n) :
    ∀ N, (List.range N).countP (fun i => decide ((c + i) % n = j)) =
      N / n + if (j + n - c) % n < N % n then 1 else 0 := by
  have hr : (j + n - c) % n < n := Nat.mod_lt _ hn
  intro N
  induction N with
  | zero => simp
  | succ N ih =>
    rw [List.range_succ, List.countP_append, ih]
    have hm : N % n < n := Nat.mod_lt _ hn
    have hiff : ((c + N) % n = j) ↔ (N % n = (j + n - c) % n) := by
      have h1 : (c + N) % n = (c + N % n) % n := by
        rw [Nat.add_mod, Nat.mod_eq_of_lt hc]
      rw [h1]
      exact mod_shift_iff n c j (N % n) hn hc hj hm
    have hsingle : List.countP (fun i => decide ((c + i) % n = j)) [N] =
        if N % n = (j + n - c) % n then 1 else 0 := by
      by_cases hNj : (c + N) % n = j
      · rw [if_pos (hiff.mp hNj)]
        simp [List.countP_cons, hNj]
      · rw [if_neg (fun hh => hNj (hiff.mpr hh))]
        simp [List.countP_cons, hNj]
    rw [hsingle]
    obtain ⟨hmod, hdiv⟩ := succ_mod_div n N hn
    rw [hmod, hdiv]
    by_cases h : N % n + 1 = n
    · rw [if_pos h, if_pos h]
      split_ifs <;> omega
    · rw [if_neg h, if_neg h]
      split_ifs <;> omega

theorem ceil_div_of_mod_pos (n N : Nat) (hn : 0 < n) (h : N % n ≠ 0) :
    (N + n - 1) / n = N / n + 1 := by
  have hdm : n * (N / n) + N % n = N := Nat.div_add_mod N n
  have hm : N % n < n := Nat.mod_lt _ hn
  have hms : n * (N / n + 1) = n * (N / n) + n := by ring
  have e : N + n - 1 = n * (N / n + 1) + (N % n - 1) := by omega
  rw [e, Nat.mul_add_div hn, Nat.div_eq_of_lt (show N % n - 1 < n by omega)]

/-! ### Round-robin fairness: behaviour of the Selector when all providers
are healthy -/

theorem next_all_available (s : SelectorState) (now : Nat)
    (hne : s.providers ≠ []) (hc : s.cursor < s.providers.length)
    (hall : ∀ j, j < s.providers.length → availableIdx s now j = true) :
    next s now = .ok (s.providers.getD s.cursor default,
      { s with cursor := (s.cursor + 1) % s.providers.length }) := by
  have hn : 0 < s.providers.length := List.length_pos.mpr hne
  have hscan : scanFrom s now s.providers.length s.cursor = some s.cursor := by
    obtain ⟨m, hme⟩ : ∃ m, s.providers.length = m + 1 := ⟨s.providers.length - 1, by omega⟩
    conv_lhs => rw [hme]
    rw [scanFrom, Nat.mod_eq_of_lt hc, if_pos (hall _ hc)]
  have hidx : nextIdx s now = s.cursor := by
    rw [nextIdx, hscan]
  rw [next_eq_ok s now hne, hidx]

theorem runSelections_all_available (now : Nat) :
    ∀ (N : Nat) (s : SelectorState), s.providers ≠ [] →
      s.cursor < s.providers.length →
      (∀ j, j < s.providers.length → availableIdx s now j = true) →
      runSelections now N s =
        (List.range N).map
          (fun i => s.providers.getD ((s.cursor + i) % s.providers.length) default) := by
  intro N
  induction N with
  | zero => intros; rfl
  | succ N ih =>
    intro s hne hc hall
    have hn : 0 < s.providers.length := List.length_pos.mpr hne
    rw [runSelections, next_all_available s now hne hc hall]
    dsimp only
    rw [ih { s with cursor := (s.cursor + 1) % s.providers.length } hne
      (Nat.mod_lt _ hn) hall]
    rw [List.range_succ_eq_map, List.map_cons, List.map_map]
    congr 1
    · rw [Nat.add_zero, Nat.mod_eq_of_lt hc]
    · apply List.map_congr_left
      intro i _
      show s.providers.getD (((s.cursor + 1) % s.providers.length + i) %
          s.providers.length) default =
        s.providers.getD ((s.cursor + (i + 1)) % s.providers.length) default
      rw [Nat.mod_add_mod]
      have harg : s.cursor + 1 + i = s.cursor + (i + 1) := by omega
      rw [harg]

theorem name_inj (s : SelectorState)
    (hnames : (s.providers.map APIService.name).Nodup)
    (a b : Nat) (ha : a < s.providers.length) (hb : b < s.providers.length)
    (h : (s.providers.getD a default).name = (s.providers.getD b default).name) :
    a = b := by
  rw [List.getD_eq_getElem _ _ ha, List.getD_eq_getElem _ _ hb] at h
  have ha' : a < (s.providers.map APIService.name).length := by simpa using ha
  have hb' : b < (s.providers.map APIService.name).length := by simpa using hb
  have hget : (s.providers.map APIService.name).get ⟨a, ha'⟩ =
      (s.providers.map APIService.name).get ⟨b, hb'⟩ := by
    simpa [List.get_eq_getElem] using h
  have := hnames.get_inj_iff.mp hget
  exact congrArg Fin.val this

/-! ### Basic lemmas about the Failover Controller loop -/

theorem chatLoop_invocations_messages (now : Nat) (ms : List ChatMessage) :
    ∀ (fuel : Nat) (causes : List (String × String))
      (invs : List (String × List ChatMessage)) (s : SelectorState),
      (∀ inv ∈ invs, inv.2 = ms) →
      ∀ inv ∈ (chatLoop now ms causes invs fuel s).invocations, inv.2 = ms := by
  intro fuel
  induction fuel with
  | zero =>
    intro causes invs s hinvs inv hmem
    rw [chatLoop] at hmem
    exact hinvs inv (List.mem_reverse.mp hmem)
  | succ fuel ih =>
    intro causes invs s hinvs inv hmem
    rw [chatLoop] at hmem
    cases hnext : next s now with
    | error e =>
      rw [hnext] at hmem
      exact hinvs inv (List.mem_reverse.mp hmem)
    | ok pair =>
      obtain ⟨p, s₁⟩ := pair
      rw [hnext] at hmem
      dsimp only at hmem
      have hcons : ∀ x ∈ (p.name, ms) :: invs, x.2 = ms := by
        intro x hx
        rcases List.mem_cons.mp hx with h | h
        · rw [h]
        · exact hinvs x h
      cases hchat : p.chat ms with
      | preStreamFailure e =>
        rw [hchat] at hmem
        exact ih _ _ _ hcons inv hmem
      | stream out =>
        cases out with
        | complete fragments =>
          rw [hchat] at hmem
          dsimp only at hmem
          exact hcons inv (List.mem_reverse.mp hmem)
        | interrupted fragments e =>
          rw [hchat] at hmem
          dsimp only at hmem
          by_cases hfe : fragments.isEmpty
          · rw [if_pos hfe] at hmem
            exact ih _ _ _ hcons inv hmem
          · rw [if_neg hfe] at hmem
            exact hcons inv (List.mem_reverse.mp hmem)

theorem chatLoop_final_providers (now : Nat) (ms : List ChatMessage) :
    ∀ (fuel : Nat) (causes : List (String × String))
      (invs : List (String × List ChatMessage)) (s : SelectorState),
      (chatLoop now ms causes invs fuel s).final.providers = s.providers := by
  intro fuel
  induction fuel with
  | zero => intro causes invs s; rw [chatLoop]
  | succ fuel ih =>
    intro causes invs s
    rw [chatLoop]
    cases hnext : next s now with
    | error e => rfl
    | ok pair =>
      obtain ⟨p, s₁⟩ := pair
      have hsp : s₁.providers = s.providers := (next_ok_inv s now p s₁ hnext).2.2.1
      dsimp only
      cases hchat : p.chat ms with
      | preStreamFailure e =>
        dsimp only
        rw [ih, markFailure_providers, hsp]
      | stream out =>
        cases out with
        | complete fragments => exact hsp
        | interrupted fragments e =>
          dsimp only
          by_cases hfe : fragments.isEmpty
          · rw [if_pos hfe, ih, markFailure_providers, hsp]
          · rw [if_neg hfe]
            exact hsp

theorem chatLoop_all_fail (now : Nat) (ms : List ChatMessage)
    (P : List APIService) (hP : ∀ p ∈ P, failsPreFirstToken (p.chat ms) = true) :
    ∀ (fuel : Nat) (causes : List (String × String))
      (invs : List (String × List ChatMessage)) (s : SelectorState),
      s.providers = P → P ≠ [] →
      ∃ l, (chatLoop now ms causes invs fuel s).outcome = .exhausted l ∧
        l.length = causes.length + fuel ∧
        (chatLoop now ms causes invs fuel s).invocations.length =
          invs.length + fuel := by
  intro fuel
  induction fuel with
  | zero =>
    intro causes invs s hsP hPne
    rw [chatLoop]
    exact ⟨causes.reverse, rfl, by simp, by simp⟩
  | succ fuel ih =>
    intro causes invs s hsP hPne
    have hne : s.providers ≠ [] := hsP ▸ hPne
    obtain ⟨p, s₁, hnext⟩ : ∃ p s₁, next s now = .ok (p, s₁) :=
      ⟨_, _, next_eq_ok s now hne⟩
    have hmem : p ∈ P := hsP ▸ next_mem s now p s₁ hnext
    have hsp : s₁.providers = P := by
      rw [(next_ok_inv s now p s₁ hnext).2.2.1, hsP]
    have hfail := hP p hmem
    rw [chatLoop, hnext]
    dsimp only
    cases hchat : p.chat ms with
    | preStreamFailure e =>
      dsimp only
      obtain ⟨l, h1, h2, h3⟩ := ih ((p.name, e) :: causes) ((p.name, ms) :: invs)
        (markFailure now p.name s₁) (by rw [markFailure_providers, hsp]) hPne
      refine ⟨l, h1, ?_, ?_⟩
      · simp only [List.length_cons] at h2
        omega
      · simp only [List.length_cons] at h3
        omega
    | stream out =>
      cases out with
      | complete fragments =>
        rw [hchat, failsPreFirstToken] at hfail
        exact absurd hfail (by simp)
      | interrupted fragments e =>
        rw [hchat, failsPreFirstToken] at hfail
        dsimp only
        rw [if_pos hfail]
        obtain ⟨l, h1, h2, h3⟩ := ih ((p.name, e) :: causes) ((p.name, ms) :: invs)
          (markFailure now p.name s₁) (by rw [markFailure_providers, hsp]) hPne
        refine ⟨l, h1, ?_, ?_⟩
        · simp only [List.length_cons] at h2
          omega
        · simp only [List.length_cons] at h3
          omega

/-! ### Concrete sample registries used by the witnesses -/

/-- A provider with a constant behaviour, for concrete registries. -/
def wProv (nm : String) (out : ProviderOutcome) : APIService :=
  ⟨nm, fun _ => out⟩

def c1Prov : APIService := wProv "m" (.stream (.interrupted ["t0", "t1"] "boom"))

def c1S : SelectorState := ⟨[c1Prov], freshState, 0⟩

def c1S1 : SelectorState := ⟨[c1Prov], freshState, 0⟩

def wMsgs : List ChatMessage := [⟨.user, "hi"⟩]

def c2S : SelectorState :=
  ⟨[wProv "a" (.preStreamFailure "ra"), wProv "b" (.stream (.interrupted [] "rb"))],
    freshState, 0⟩

def c3S : SelectorState := ⟨[wProv "a" (.stream (.complete ["x"]))], freshState, 0⟩

def c4S : SelectorState :=
  ⟨[wProv "a" (.stream (.complete ["x"])), wProv "b" (.stream (.complete ["y"]))],
    freshState, 0⟩

def c5S : SelectorState :=
  ⟨[wProv "a" (.preStreamFailure "x"), wProv "b" (.stream (.complete []))],
    freshState, 1⟩

def c8P : APIService := wProv "g" (.stream (.complete ["ok"]))

def c8S : SelectorState := ⟨[c8P], freshState, 0⟩

def c9P : APIService := wProv "p" (.stream (.complete ["z"]))

def c9S : SelectorState := ⟨[c9P], freshState, 0⟩

def c9S1 : SelectorState := ⟨[c9P], freshState, 0⟩

/-! ### The claims -/

/-- Claim C3: on a non-empty registry the Selector's `next()` always
returns a provider of the registry; whenever some registered provider is
currently available (healthy, or cooldown expired) the selected one is
available — unhealthy providers with unexpired cooldowns are skipped; and
when no provider is available, the selection is exactly the
least-recently-failed fallback: the provider at `fallbackIndex`, whose
cooldown key (when the provider last entered cooldown, i.e. last failed)
is minimal over the whole registry.  `next()` fails with
`NoProvidersRegisteredError` exactly when the registry is empty. -/
theorem c3_next_total (s : SelectorState) (now : Nat) :
    (next s now = .error .noProvidersRegistered ↔ s.providers = []) ∧
    (s.providers ≠ [] → ∃ p s', next s now = .ok (p, s') ∧ p ∈ s.providers ∧
      ((∃ q ∈ s.providers, (s.stateOf q.name).available now = true) →
        (s.stateOf p.name).available now = true) ∧
      ((¬∃ q ∈ s.providers, (s.stateOf q.name).available now = true) →
        p = s.providers.getD (fallbackIndex s) default ∧
        ∀ j, j < s.providers.length →
          cooldownKey s (fallbackIndex s) ≤ cooldownKey s j)) := by
  refine ⟨next_error_iff s now, fun hne => ?_⟩
  have hn : 0 < s.providers.length := List.length_pos.mpr hne
  refine ⟨_, _, next_eq_ok s now hne, next_mem s now _ _ (next_eq_ok s now hne),
    ?_, ?_⟩
  · rintro ⟨q, hq, hav⟩
    obtain ⟨j, hj, rfl⟩ := List.mem_iff_getElem.mp hq
    have hj' : availableIdx s now j = true := by
      rw [availableIdx, List.getD_eq_getElem s.providers default hj]
      exact hav
    have h2 := nextIdx_available s now hn ⟨j, hj, hj'⟩
    rw [availableIdx] at h2
    exact h2
  · intro hnav
    have hnone : ∀ j, j < s.providers.length → availableIdx s now j = false := by
      intro j hj
      cases hb : availableIdx s now j
      · rfl
      · exact absurd
          ⟨s.providers.getD j default,
            by rw [List.getD_eq_getElem _ _ hj]; exact List.getElem_mem hj,
            by rw [availableIdx] at hb; exact hb⟩
          hnav
    refine ⟨?_, fallbackIndex_min s hn⟩
    rw [nextIdx_fallback s now hn hnone]

/-- Witness for C3 at a concrete one-provider registry. -/
theorem c3_next_total_witness :
    c3S.providers ≠ [] ∧
    (∃ p s', next c3S 5 = .ok (p, s') ∧ p ∈ c3S.providers ∧
      ((∃ q ∈ c3S.providers, (c3S.stateOf q.name).available 5 = true) →
        (c3S.stateOf p.name).available 5 = true) ∧
      ((¬∃ q ∈ c3S.providers, (c3S.stateOf q.name).available 5 = true) →
        p = c3S.providers.getD (fallbackIndex c3S) default ∧
        ∀ j, j < c3S.providers.length →
          cooldownKey c3S (fallbackIndex c3S) ≤ cooldownKey c3S j)) :=
  ⟨by simp [c3S], (c3_next_total c3S 5).2 (by simp [c3S])⟩

/-- Claim C5: the Cursor invariant `0 ≤ cursor < providerCount` is
preserved by `next()`: starting from any state satisfying it (on a
non-empty registry), the selected index is in range and the new Cursor is
that index advanced by one, modulo the provider count — so it wraps to 0
after the last provider. -/
theorem c5_cursor_invariant (s : SelectorState) (now : Nat)
    (hne : s.providers ≠ []) (hc : s.cursor < s.providers.length) :
    ∃ p s', next s now = .ok (p, s') ∧ s'.cursor < s.providers.length ∧
      ∃ i, i < s.providers.length ∧ p = s.providers.getD i default ∧
        s'.cursor = (i + 1) % s.providers.length := by
  have hn : 0 < s.providers.length := List.length_pos.mpr hne
  exact ⟨_, _, next_eq_ok s now hne, Nat.mod_lt _ hn,
    nextIdx s now, nextIdx_lt s now hn, rfl, rfl⟩

/-- Witness for C5 at a concrete two-provider registry with Cursor 1. -/
theorem c5_cursor_invariant_witness :
    c5S.providers ≠ [] ∧ c5S.cursor < c5S.providers.length ∧
    (∃ p s', next c5S 0 = .ok (p, s') ∧ s'.cursor < c5S.providers.length ∧
      ∃ i, i < c5S.providers.length ∧ p = c5S.providers.getD i default ∧
        s'.cursor = (i + 1) % c5S.providers.length) :=
  ⟨by simp [c5S], by simp [c5S],
    c5_cursor_invariant c5S 0 (by simp [c5S]) (by simp [c5S])⟩

/-- Claim C6: `normalize` assigns sequence numbers starting at 0,
incrementing by 1, with no gaps or duplicates, in the order the fragments
arrive: the sequence numbers of its output are exactly `0, 1, …, k-1` and
the texts are exactly the input fragments in order. -/
theorem c6_normalize_sequence_numbers (fragments : List String) :
    (normalize fragments).map Token.seq = List.range fragments.length ∧
    (normalize fragments).map Token.text = fragments := by
  constructor
  · rw [normalize, normalizeFrom_map_seq, List.range_eq_range']
  · exact normalizeFrom_map_text 0 fragments

/-- Claim C7: a provider capability, as `types.ts` declares it, maps an
ordered `ChatMessage` list to either a (lazily iterated) stream of text
fragments or a provider-specific failure — exactly the shape the core
consumes at its provider boundary. -/
theorem c7_capability_shape (svc : APIService) (ms : List ChatMessage) :
    (∃ out : StreamOutcome, svc.chat ms = .stream out) ∨
    (∃ e : String, svc.chat ms = .preStreamFailure e) := by
  cases h : svc.chat ms with
  | preStreamFailure e => exact Or.inr ⟨e, rfl⟩
  | stream out => exact Or.inl ⟨out, rfl⟩

/-- Claim C8: a `ChatMessage` consists of exactly a role among
user/assistant/system and a content text (it is a pure value, so
immutable), and the gateway hands every provider invocation exactly the
caller's message list, preserving conversation order end-to-end. -/
theorem c8_chatmessage_shape_and_order (now : Nat) (ms : List ChatMessage)
    (s : SelectorState) (r : Role) (m : ChatMessage)
    (inv : String × List ChatMessage)
    (hinv : inv ∈ (chat now ms s).invocations) :
    (r = .user ∨ r = .assistant ∨ r = .system) ∧
    m = ⟨m.role, m.content⟩ ∧
    inv.2 = ms := by
  refine ⟨?_, rfl, ?_⟩
  · cases r
    · exact Or.inl rfl
    · exact Or.inr (Or.inl rfl)
    · exact Or.inr (Or.inr rfl)
  · refine chatLoop_invocations_messages now ms _ [] [] s ?_ inv hinv
    intro x hx
    exact absurd hx (List.not_mem_nil x)

/-- Witness for C8 at a concrete invocation recorded by a one-provider
`chat()` run. -/
theorem c8_chatmessage_shape_and_order_witness :
    (("g", wMsgs) ∈ (chat 0 wMsgs c8S).invocations) ∧
    ((Role.user = .user ∨ Role.user = .assistant ∨ Role.user = .system) ∧
      (⟨.user, "hi"⟩ : ChatMessage) =
        ⟨(⟨.user, "hi"⟩ : ChatMessage).role, (⟨.user, "hi"⟩ : ChatMessage).content⟩ ∧
      (("g", wMsgs) : String × List ChatMessage).2 = wMsgs) := by
  have hmem : ("g", wMsgs) ∈ (chat 0 wMsgs c8S).invocations := by
    rw [show (chat 0 wMsgs c8S).invocations = [("g", wMsgs)] from rfl]
    exact List.mem_cons_self _ _
  exact ⟨hmem,
    c8_chatmessage_shape_and_order 0 wMsgs c8S .user ⟨.user, "hi"⟩ ("g", wMsgs) hmem⟩

/-- Claim C9: a registered provider is exactly a name plus its chat
capability (extensionality over those two fields — no further, mutable
fields exist), all mutable health data lives in `ProviderState`
(extensionality over its four fields), and no operation of the selector or
controller ever changes the registry's providers. -/
theorem c9_provider_stateless (a b : APIService) (s : SelectorState)
    (now : Nat) (ms : List ChatMessage) (id : String) (st : ProviderState)
    (p : APIService) (s' : SelectorState)
    (hname : a.name = b.name) (hchat : a.chat = b.chat)
    (hnext : next s now = .ok (p, s')) :
    a = b ∧
    st = ⟨st.providerId, st.healthy, st.consecutiveFailures, st.cooldownUntil⟩ ∧
    s'.providers = s.providers ∧
    (markFailure now id s).providers = s.providers ∧
    (markSuccess id s).providers = s.providers ∧
    (chat now ms s).final.providers = s.providers := by
  refine ⟨?_, rfl, (next_ok_inv s now p s' hnext).2.2.1, rfl, rfl, ?_⟩
  · calc a = ⟨a.name, a.chat⟩ := rfl
      _ = ⟨b.name, b.chat⟩ := by rw [hname, hchat]
      _ = b := rfl
  · exact chatLoop_final_providers now ms s.providers.length [] [] s

/-- Witness for C9 at a concrete one-provider registry. -/
theorem c9_provider_stateless_witness :
    c9P.name = c9P.name ∧ c9P.chat = c9P.chat ∧ next c9S 0 = .ok (c9P, c9S1) ∧
    (c9P = c9P ∧
      freshState "q" = ⟨(freshState "q").providerId, (freshState "q").healthy,
        (freshState "q").consecutiveFailures, (freshState "q").cooldownUntil⟩ ∧
      c9S1.providers = c9S.providers ∧
      (markFailure 0 "p" c9S).providers = c9S.providers ∧
      (markSuccess "p" c9S).providers = c9S.providers ∧
      (chat 0 wMsgs c9S).final.providers = c9S.providers) :=
  ⟨rfl, rfl, rfl,
    c9_provider_stateless c9P c9P c9S 0 wMsgs "p" (freshState "q") c9P c9S1
      rfl rfl rfl⟩

/-- Claim C10: the embedded `APIService.chat` type separates the two
failure phases: an outcome is exactly one of a pre-stream failure (the
promise rejects before any stream exists), a completed stream of plain
string fragments, or a stream failing mid-iteration after a string prefix
— and the three shapes are pairwise distinct. -/
theorem c10_failure_phases_distinguished (svc : APIService) (ms : List ChatMessage) :
    ((∃ e, svc.chat ms = .preStreamFailure e) ∨
      (∃ fragments : List String, svc.chat ms = .stream (.complete fragments)) ∨
      (∃ (fragments : List String) (e : String),
        svc.chat ms = .stream (.interrupted fragments e))) ∧
    (∀ e fragments, ProviderOutcome.preStreamFailure e ≠ .stream (.complete fragments)) ∧
    (∀ e fragments e',
      ProviderOutcome.preStreamFailure e ≠ .stream (.interrupted fragments e')) ∧
    (∀ fragments fragments' e',
      ProviderOutcome.stream (.complete fragments) ≠ .stream (.interrupted fragments' e')) := by
  refine ⟨?_, fun e f => by simp, fun e f e' => by simp, fun f f' e' => by simp⟩
  cases h : svc.chat ms with
  | preStreamFailure e => exact Or.inl ⟨e, rfl⟩
  | stream out =>
    cases out with
    | complete fragments => exact Or.inr (Or.inl ⟨fragments, rfl⟩)
    | interrupted fragments e => exact Or.inr (Or.inr ⟨fragments, e, rfl⟩)

/-- Claim C1: if, during a `chat()` run, the current provider's stream
breaks after delivering at least one fragment, the controller terminates
immediately: the caller receives exactly the tokens normalized from the
delivered fragments followed by `StreamInterruptedError`, the provider is
marked unhealthy, exactly this one further invocation is recorded, and the
result does not depend on the remaining attempt budget — no retry with
another provider, hence no spliced, duplicated or reordered output. -/
theorem c1_no_silent_retry_after_first_token (now : Nat) (ms : List ChatMessage)
    (causes : List (String × String)) (invs : List (String × List ChatMessage))
    (fuel : Nat) (s : SelectorState) (p : APIService) (s₁ : SelectorState)
    (fragments : List String) (e : String)
    (hnext : next s now = .ok (p, s₁))
    (hchat : p.chat ms = .stream (.interrupted fragments e))
    (hne : fragments ≠ []) :
    chatLoop now ms causes invs (fuel + 1) s =
      ⟨.interrupted (normalize fragments), markFailure now p.name s₁,
        ((p.name, ms) :: invs).reverse⟩ := by
  rw [chatLoop, hnext]
  dsimp only
  rw [hchat]
  dsimp only
  rw [if_neg (by simpa [List.isEmpty_iff] using hne)]

/-- Witness for C1: a provider that yields two fragments and then breaks. -/
theorem c1_no_silent_retry_after_first_token_witness :
    next c1S 0 = .ok (c1Prov, c1S1) ∧
    c1Prov.chat wMsgs = .stream (.interrupted ["t0", "t1"] "boom") ∧
    (["t0", "t1"] : List String) ≠ [] ∧
    chatLoop 0 wMsgs [] [] 5 c1S =
      ⟨.interrupted (normalize ["t0", "t1"]), markFailure 0 c1Prov.name c1S1,
        ((c1Prov.name, wMsgs) :: []).reverse⟩ :=
  ⟨rfl, rfl, by simp,
    c1_no_silent_retry_after_first_token 0 wMsgs [] [] 4 c1S c1Prov c1S1
      ["t0", "t1"] "boom" rfl rfl (by simp)⟩

/-- Claim C2: when every registered provider fails before producing a first
token, `chat()` fails with `AllProvidersExhaustedError` carrying exactly
one failure cause per attempted provider (`providerCount` causes from
`providerCount` attempts — the retry loop is bounded by the provider
count), and no tokens are ever delivered: the outcome is neither a
completed nor an interrupted token stream. -/
theorem c2_all_providers_exhausted (now : Nat) (ms : List ChatMessage)
    (s : SelectorState)
    (hfail : ∀ p ∈ s.providers, failsPreFirstToken (p.chat ms) = true) :
    ∃ causes, (chat now ms s).outcome = .exhausted causes ∧
      causes.length = s.providers.length ∧
      (chat now ms s).invocations.length = s.providers.length ∧
      ∀ ts, (chat now ms s).outcome ≠ .completed ts ∧
        (chat now ms s).outcome ≠ .interrupted ts := by
  by_cases hne : s.providers = []
  · refine ⟨[], ?_, by simp [hne], ?_, ?_⟩
    · rw [show (chat now ms s).outcome = .exhausted [] from by
        rw [chat, hne]; rfl]
    · rw [chat, hne]
      simp [chatLoop, hne]
    · intro ts
      rw [show (chat now ms s).outcome = .exhausted [] from by
        rw [chat, hne]; rfl]
      exact ⟨by simp, by simp⟩
  · obtain ⟨l, h1, h2, h3⟩ :=
      chatLoop_all_fail now ms s.providers hfail s.providers.length [] [] s rfl hne
    have h1' : (chat now ms s).outcome = .exhausted l := h1
    have h3' : (chat now ms s).invocations.length = s.providers.length := by
      rw [chat]
      simpa using h3
    refine ⟨l, h1', by simpa using h2, h3', ?_⟩
    intro ts
    rw [h1']
    exact ⟨by simp, by simp⟩

/-- Witness for C2: two providers, one rejecting pre-stream and one whose
stream breaks before any fragment. -/
theorem c2_all_providers_exhausted_witness :
    (∀ p ∈ c2S.providers, failsPreFirstToken (p.chat wMsgs) = true) ∧
    (∃ causes, (chat 0 wMsgs c2S).outcome = .exhausted causes ∧
      causes.length = c2S.providers.length ∧
      (chat 0 wMsgs c2S).invocations.length = c2S.providers.length ∧
      ∀ ts, (chat 0 wMsgs c2S).outcome ≠ .completed ts ∧
        (chat 0 wMsgs c2S).outcome ≠ .interrupted ts) := by
  have hfail : ∀ p ∈ c2S.providers, failsPreFirstToken (p.chat wMsgs) = true := by
    decide
  exact ⟨hfail, c2_all_providers_exhausted 0 wMsgs c2S hfail⟩

/-- Claim C4: over `N` consecutive selections against `P` healthy providers
with no failures, the chosen providers follow the registry's rotation order
starting at the current Cursor, and (for distinct provider names) each
provider is selected either `⌊N/P⌋` or `⌈N/P⌉` times. -/
theorem c4_round_robin_fairness (now N : Nat) (s : SelectorState)
    (hne : s.providers ≠ []) (hc : s.cursor < s.providers.length)
    (hall : ∀ p ∈ s.providers, (s.stateOf p.name).available now = true)
    (hnames : (s.providers.map APIService.name).Nodup) :
    runSelections now N s =
      (List.range N).map
        (fun i => s.providers.getD ((s.cursor + i) % s.providers.length) default) ∧
    ∀ j, j < s.providers.length →
      (runSelections now N s).countP
          (fun p => p.name == (s.providers.getD j default).name) =
          N / s.providers.length ∨
        (runSelections now N s).countP
          (fun p => p.name == (s.providers.getD j default).name) =
          (N + s.providers.length - 1) / s.providers.length := by
  have hn : 0 < s.providers.length := List.length_pos.mpr hne
  have hallIdx : ∀ j, j < s.providers.length → availableIdx s now j = true := by
    intro j hj
    rw [availableIdx, List.getD_eq_getElem _ _ hj]
    exact hall _ (List.getElem_mem hj)
  have horder := runSelections_all_available now N s hne hc hallIdx
  refine ⟨horder, fun j hj => ?_⟩
  rw [horder, List.countP_map]
  have hcongr : (List.range N).countP
      ((fun p => p.name == (s.providers.getD j default).name) ∘
        fun i => s.providers.getD ((s.cursor + i) % s.providers.length) default) =
      (List.range N).countP
        (fun i => decide ((s.cursor + i) % s.providers.length = j)) := by
    apply List.countP_congr
    intro i _
    show ((s.providers.getD ((s.cursor + i) % s.providers.length) default).name ==
        (s.providers.getD j default).name) = true ↔
      decide ((s.cursor + i) % s.providers.length = j) = true
    simp only [beq_iff_eq, decide_eq_true_eq]
    constructor
    · intro h
      exact name_inj s hnames _ _ (Nat.mod_lt _ hn) hj h
    · intro h
      rw [h]
  rw [hcongr, countP_range_rotation s.providers.length s.cursor j hn hc hj N]
  by_cases hlt :
      (j + s.providers.length - s.cursor) % s.providers.length <
        N % s.providers.length
  · rw [if_pos hlt]
    right
    rw [ceil_div_of_mod_pos _ _ hn (by omega)]
  · rw [if_neg hlt]
    left
    omega

/-- Witness for C4: three selections over two healthy providers. -/
theorem c4_round_robin_fairness_witness :
    c4S.providers ≠ [] ∧ c4S.cursor < c4S.providers.length ∧
    (∀ p ∈ c4S.providers, (c4S.stateOf p.name).available 0 = true) ∧
    (c4S.providers.map APIService.name).Nodup ∧
    (runSelections 0 3 c4S =
      (List.range 3).map
        (fun i => c4S.providers.getD ((c4S.cursor + i) % c4S.providers.length) default) ∧
    ∀ j, j < c4S.providers.length →
      (runSelections 0 3 c4S).countP
          (fun p => p.name == (c4S.providers.getD j default).name) =
          3 / c4S.providers.length ∨
        (runSelections 0 3 c4S).countP
          (fun p => p.name == (c4S.providers.getD j default).name) =
          (3 + c4S.providers.length - 1) / c4S.providers.length) :=
  ⟨by simp [c4S], by simp [c4S], by decide, by decide,
    c4_round_robin_fairness 0 3 c4S (by simp [c4S]) (by simp [c4S])
      (by decide) (by decide)⟩

end BunAI
